import Mathlib

/-!
Verification development for the Eufacts ETL cube-to-tabular reduction
engine.  The definitions below are a shallow embedding of the functions
`_linear_index_to_coords`, `_build_dim_meta`, `_choose_pct_unit` and
`parse_latest_and_timeseries` from `etl/eufacts.py` (the file
`etl/teina230.py` contains verbatim copies of the same functions).

Modelling conventions:
* Python dicts are association lists in insertion order; `alookup` is
  first-match lookup (dict keys are unique in the source documents).
* Numeric observation values are `Option Int` (`none` models JSON
  `null` / Python `None`); only order comparisons on values occur in
  the source, which integers model faithfully.
* The keys of the sparse `value` mapping are already parsed to `Nat`
  (the source parses decimal strings with `int(k)`).
* `raise ValueError` / `KeyError` sites become an `Except ParseErr`.
* Python's stable `list.sort(key=k)` / `sorted(key=k)` is
  `List.insertionSort r` with `r a b = (k a <= k b)`, and
  `sort(key=k, reverse=True)` is `List.insertionSort r` with
  `r a b = (k b <= k a)`: both insert an earlier element before the
  first later element it need not follow, which is exactly stable
  ascending (resp. descending) order.
-/

namespace Eufacts

/-- Error outcomes of the parser: `noValue` and `noTime` are the two
`raise ValueError` sites of `parse_latest_and_timeseries`; `missingDim`
and `badPos` model the `KeyError`s a malformed cube would raise at
`dimension[d]` / `inv_index[pos]`. -/
inductive ParseErr where
  | noValue : ParseErr
  | noTime : ParseErr
  | missingDim : String → ParseErr
  | badPos : String → Int → ParseErr
deriving Repr, DecidableEq

/-- First-match association-list lookup, modelling Python dict lookup
(`m[k]` / `m.get(k)`); source dicts have unique keys. -/
def alookup (m : List (String × α)) (k : String) : Option α :=
  (m.find? (fun kv => kv.1 == k)).map (fun kv => kv.2)

/-- Lookup of `pos` in the inverted index `inv_index = {pos: code for
code, pos in index.items()}`: on duplicate positions the Python dict
comprehension keeps the last code, hence the scan over the reversed
list. -/
def invLookup (m : List (String × Nat)) (p : Int) : Option String :=
  (m.reverse.find? (fun cp => ((cp.2 : Int) == p))).map (fun cp => cp.1)

/-- The loop body of `_linear_index_to_coords`: peel positions off a
(reversed) size list, little-endian (`idx % size`, `idx //= size`). -/
def decodeAux (idx : Nat) : List Nat → List Nat
  | [] => []
  | s :: rest => idx % s :: decodeAux (idx / s) rest

/-- `_linear_index_to_coords(idx, dims_sizes)` from `etl/eufacts.py`:
iterate the sizes last-to-first collecting `idx % size` and dividing,
then reverse the collected positions back to dimension order. -/
def linear_index_to_coords (idx : Nat) (dims_sizes : List Nat) : List Nat :=
  (decodeAux idx dims_sizes.reverse).reverse

/-- Modelled from the spec: the row-major mixed-radix re-encoding used
to state the decode/encode round trip ("treating the decoded position
vector as mixed-radix digits with the same size list", last dimension
varying fastest).  The source has no encoder; this is the spec side of
claim C3. -/
def encodeCoords : List Nat → List Nat → Nat
  | c :: cs, s :: ss => c * ss.prod + encodeCoords cs ss
  | _, _ => 0

/-- Little-endian mixed-radix value of a digit list (proof device for
relating `decodeAux` to `encodeCoords`). -/
def valLE : List Nat → List Nat → Nat
  | d :: ds, s :: ss => d + s * valLE ds ss
  | _, _ => 0

/-! ### Order infrastructure

Python compares strings lexicographically by code point and tuples
lexicographically componentwise; `sorted` / `list.sort` are stable.
The Bool-valued comparators below reproduce those comparisons in an
executable (kernel-reducible) form. -/

/-- Code-point strict comparison of characters (Python `<` on one-char
strings). -/
def chLt (a b : Char) : Bool := a.toNat < b.toNat

/-- Lexicographic strict comparison of character lists (Python `<` on
strings). -/
def chListLt : List Char → List Char → Bool
  | [], [] => false
  | [], _ :: _ => true
  | _ :: _, [] => false
  | a :: as, b :: bs =>
      if chLt a b then true else if chLt b a then false else chListLt as bs

/-- Python string `<` (code-point lexicographic). -/
def strLt (a b : String) : Bool := chListLt a.data b.data

/-- Python string `<=`. -/
def strLe (a b : String) : Bool := !(strLt b a)

/-- Lift a strict comparator to `Option`, with `none` below every
`some` (Python never compares `None` with a string without raising;
all-`None` keys compare equal, which this lift also models). -/
def optLt (lt : α → α → Bool) : Option α → Option α → Bool
  | none, some _ => true
  | none, none => false
  | some _, none => false
  | some a, some b => lt a b

/-- Lexicographic strict comparison of pairs (Python tuple `<`). -/
def pairLt (ltA : α → α → Bool) (ltB : β → β → Bool) [DecidableEq α]
    (p q : α × β) : Bool :=
  ltA p.1 q.1 || (decide (p.1 = q.1) && ltB p.2 q.2)

/-! ### Flat records and the Unit Disambiguator (`_choose_pct_unit`) -/

/-- A flat record, one per populated cube cell: one entry of
`all_records` in `parse_latest_and_timeseries`.  Fields are `Option`
because `coord_map.get(dim, {}).get(field)` yields `None` when the
cube lacks the dimension. -/
structure Record where
  value : Option Int
  unit_code : Option String
  unit_label : Option String
  geo_code : Option String
  geo_label : Option String
  time_code : Option String
  time_label : Option String
  time_pos : Option Nat
deriving Repr, DecidableEq

/-- Python truthiness of an optional string (`if uc:`, `if not geo:`):
`None` and `""` are falsy; a truthy value is returned unchanged. -/
def truthyStr : Option String → Option String
  | some s => if s.data.isEmpty then none else some s
  | none => none

/-- The truthy unit codes of a record list, in record-iteration order
(`r["unit_code"] for r in records if r.get("unit_code")`, before the
`set`/`sorted`). -/
def unitCodes (records : List Record) : List String :=
  records.filterMap (fun r => truthyStr r.unit_code)

/-- `sorted({... unit codes ...})` in `_choose_pct_unit`: the distinct
truthy unit codes in ascending string order, modelled as a stable sort
followed by duplicate removal (the duplicates removed are equal
elements, so the result is the ascending enumeration of the set). -/
def units_present (records : List Record) : List String :=
  (List.insertionSort (fun a b => strLe a b = true) (unitCodes records)).dedup

/-- Python `if label and "%" in label` on an optional label. -/
def hasPctLabel : Option String → Bool
  | some l => !l.data.isEmpty && l.data.contains '%'
  | none => false

/-- The `unit_labels` dict built by `_choose_pct_unit`: a first-seen
map from truthy unit code to the first such record's `unit_label`.
`seen` carries the dict's key set (the loop tests
`uc not in unit_labels`); new keys are appended in insertion order. -/
def unitLabelsAux (seen : List String) : List Record → List (String × Option String)
  | [] => []
  | r :: rest =>
      match truthyStr r.unit_code with
      | some uc =>
          if uc ∈ seen then unitLabelsAux seen rest
          else (uc, r.unit_label) :: unitLabelsAux (uc :: seen) rest
      | none => unitLabelsAux seen rest

/-- The complete `unit_labels` dict of `_choose_pct_unit`. -/
def unit_labels (records : List Record) : List (String × Option String) :=
  unitLabelsAux [] records

/-- `_choose_pct_unit(records)` from `etl/eufacts.py`: preference-coded
unit, else first unit whose label contains `%`, else the only unit
present, else none. -/
def choose_pct_unit (records : List Record) : Option String :=
  let ups := units_present records
  match ["PC_GDP", "PCGDP", "PCT_GDP", "PCTGDP"].find?
      (fun c => decide (c ∈ ups)) with
  | some c => some c
  | none =>
      match (unit_labels records).find? (fun cl => hasPctLabel cl.2) with
      | some cl => some cl.1
      | none => if ups.length = 1 then ups.head? else none

/-- The unit label the claim associates with a code: the `unit_label`
of the first record carrying that truthy code (this is the label the
source's first-seen `unit_labels` dict stores). -/
def labelOfFirst (records : List Record) (c : String) : Option String :=
  match records.find? (fun r => truthyStr r.unit_code == some c) with
  | some r => r.unit_label
  | none => none

/-- Modelled from the claim's words (C2): the cascade as the
specification states it — each preferred code in order, against the
unit codes present; then the first unit code in first-seen
record-iteration order whose label contains `%`; then the single
distinct unit code if exactly one is present; otherwise none. -/
def choosePctUnitSpec (records : List Record) : Option String :=
  let codes := unitCodes records
  if "PC_GDP" ∈ codes then some "PC_GDP"
  else if "PCGDP" ∈ codes then some "PCGDP"
  else if "PCT_GDP" ∈ codes then some "PCT_GDP"
  else if "PCTGDP" ∈ codes then some "PCTGDP"
  else
    match codes.find? (fun c => hasPctLabel (labelOfFirst records c)) with
    | some c => some c
    | none =>
        match codes.dedup with
        | [c] => some c
        | _ => none

/-! ### Cube model, Dimension Catalog Builder, Cell Materializer -/

/-- One dimension's `category` object of the JSON-stat wire shape:
optional `index` (code to position; `[]` models absent-or-empty),
`label` (code to human label) and optional `length`. -/
structure Category where
  index : List (String × Nat)
  label : List (String × String)
  length? : Option Nat
deriving Repr, DecidableEq

/-- A cube document, after JSON parsing: ordered dimension names,
parallel sizes, per-dimension categories and the sparse value map. -/
structure Cube where
  id : List String
  size : List Nat
  dimension : List (String × Category)
  value : List (Nat × Option Int)
deriving Repr, DecidableEq

/-- The per-dimension entry of `dim_meta` (`inv_index` is not stored:
it is recomputed by `invLookup`, which reproduces the last-wins dict
comprehension). -/
structure DimMeta where
  index : List (String × Nat)
  labels : List (String × String)
  size : Nat
deriving Repr, DecidableEq

/-- The loop body of `_build_dim_meta` for one dimension: take the
supplied `index` map unless it is empty, in which case enumerate the
label-map keys in order from 0; the size is the explicit `length`
field if present, else the number of distinct codes (Python
`len(index_map)`; dict keys are distinct). -/
def buildDimMetaOne (cat : Category) : DimMeta :=
  let index_map := if cat.index.isEmpty
    then (cat.label.map Prod.fst).enum.map (fun im => (im.2, im.1))
    else cat.index
  { index := index_map
    labels := cat.label
    size := match cat.length? with
      | some n => n
      | none => ((index_map.map Prod.fst).dedup).length }

/-- The loop of `_build_dim_meta` over the dimension-name list
(`dimension[d]` raises `KeyError` when `d` is missing). -/
def buildDimsAux (dimension : List (String × Category)) :
    List String → Except ParseErr (List (String × DimMeta))
  | [] => Except.ok []
  | d :: rest =>
      match alookup dimension d with
      | none => Except.error (ParseErr.missingDim d)
      | some cat =>
          match buildDimsAux dimension rest with
          | Except.ok ms => Except.ok ((d, buildDimMetaOne cat) :: ms)
          | Except.error e => Except.error e

/-- `_build_dim_meta(cube)` from `etl/eufacts.py` (the `dim_ids` and
`size` components of its return value are `cube.id` and `cube.size`,
used directly by the parser below). -/
def build_dim_meta (cube : Cube) : Except ParseErr (List (String × DimMeta)) :=
  buildDimsAux cube.dimension cube.id

/-- One entry of `coord_map`: the code, label and position of a cell
along one dimension. -/
structure CoordEntry where
  code : String
  label : String
  pos : Nat
deriving Repr, DecidableEq

/-- The `for dim_name, pos in zip(dim_ids, coords)` loop of the cell
materializer: look up each position's code in the inverted index
(`KeyError` when absent) and its label, defaulting to the code. -/
def coordEntries (dm : List (String × DimMeta)) :
    List (String × Nat) → Except ParseErr (List (String × CoordEntry))
  | [] => Except.ok []
  | (d, pos) :: rest =>
      match alookup dm d with
      | none => Except.error (ParseErr.missingDim d)
      | some meta =>
          match invLookup meta.index (pos : Int) with
          | none => Except.error (ParseErr.badPos d (pos : Int))
          | some code =>
              match coordEntries dm rest with
              | Except.ok es =>
                  Except.ok ((d, { code := code
                                   label := (alookup meta.labels code).getD code
                                   pos := pos }) :: es)
              | Except.error e => Except.error e

/-- The record built from one populated cell (`all_records.append` at
lines 201–210): the three semantically relevant dimensions are projected
out of `coord_map` with `.get`, so each field is `none` when the cube
lacks the dimension. -/
def mkRecord (v : Option Int) (cm : List (String × CoordEntry)) : Record :=
  { value := v
    unit_code := (alookup cm "unit").map (fun e => e.code)
    unit_label := (alookup cm "unit").map (fun e => e.label)
    geo_code := (alookup cm "geo").map (fun e => e.code)
    geo_label := (alookup cm "geo").map (fun e => e.label)
    time_code := (alookup cm "time").map (fun e => e.code)
    time_label := (alookup cm "time").map (fun e => e.label)
    time_pos := (alookup cm "time").map (fun e => e.pos) }

/-- The `for k, v in value_map.items()` loop building `all_records`:
decode each linear index against the full size list and materialize
the record. -/
def materializeCells (cube : Cube) (dm : List (String × DimMeta)) :
    List (Nat × Option Int) → Except ParseErr (List Record)
  | [] => Except.ok []
  | (k, v) :: rest =>
      match coordEntries dm (cube.id.zip (linear_index_to_coords k cube.size)) with
      | Except.error e => Except.error e
      | Except.ok cm =>
          match materializeCells cube dm rest with
          | Except.ok rs => Except.ok (mkRecord v cm :: rs)
          | Except.error e => Except.error e

/-! ### Projection Builder -/

/-- Lines 213–215: when a unit was chosen keep only records with that
unit code (a chosen unit is always a truthy string, so Python's
`if chosen_unit:` is an is-some test); otherwise keep all records. -/
def unitFilter (records : List Record) : List Record :=
  match choose_pct_unit records with
  | some u => records.filter (fun r => r.unit_code == some u)
  | none => records

/-- Sort key of the latest projection:
`(x["value"] is None, x["value"])` with the boolean as 0/1.  The `0`
placeholder for a missing value is never order-compared: Python only
checks `None == None` when both flags are set, and two such keys tie
here as well. -/
def latestKey (r : Record) : Nat × Int :=
  (if r.value.isNone then 1 else 0, r.value.getD 0)

/-- Strict lexicographic comparison of latest-sort keys. -/
def latKeyLt : (Nat × Int) → (Nat × Int) → Bool :=
  pairLt (fun a b : Nat => decide (a < b)) (fun a b : Int => decide (a < b))

/-- The relation of the stable descending sort
`latest_records.sort(key=..., reverse=True)`: `a` may precede `b` iff
`key a` is not strictly below `key b`. -/
def latDescRel (a b : Record) : Prop :=
  latKeyLt (latestKey a) (latestKey b) = false

instance : DecidableRel latDescRel :=
  fun a b => instDecidableEqBool (latKeyLt (latestKey a) (latestKey b)) false

/-- Sort key of the timeseries pass: `(x["geo_code"], x["time_pos"])`. -/
def tsKey (r : Record) : Option String × Option Nat := (r.geo_code, r.time_pos)

/-- Strict lexicographic comparison of timeseries sort keys. -/
def tsKeyLt : (Option String × Option Nat) → (Option String × Option Nat) → Bool :=
  pairLt (optLt strLt) (optLt (fun a b : Nat => decide (a < b)))

/-- The relation of the stable ascending sort
`sorted(all_records, key=lambda x: (x["geo_code"], x["time_pos"]))`:
`a` may precede `b` iff `key b` is not strictly below `key a`. -/
def tsAscRel (a b : Record) : Prop :=
  tsKeyLt (tsKey b) (tsKey a) = false

instance : DecidableRel tsAscRel :=
  fun a b => instDecidableEqBool (tsKeyLt (tsKey b) (tsKey a)) false

/-- One latest-projection output row (lines 222–228). -/
structure LatestOut where
  country_code : Option String
  country : Option String
  time : Option String
  value_pct_gdp : Option Int
deriving Repr, DecidableEq

/-- The output-shape map of the latest projection. -/
def toLatestOut (r : Record) : LatestOut :=
  { country_code := r.geo_code
    country := r.geo_label
    time := r.time_label
    value_pct_gdp := r.value }

/-- Lines 218–228: keep records whose `time_pos` equals the latest
time position (an `Int`, `time_size - 1`; a record's missing
`time_pos` never equals it, like Python `None == int`), sort stably
descending by `(value is None, value)`, and map to the output shape. -/
def latestProjection (latestTimePos : Int) (records : List Record) : List LatestOut :=
  (List.insertionSort latDescRel
    (records.filter
      (fun r => (r.time_pos.map (fun n => (n : Int))) == some latestTimePos))).map
    toLatestOut

/-- One output series (the dict created per geography, lines 238–243);
`series` holds the `(time_label, value)` pairs appended per record. -/
structure Series where
  country_code : String
  country : Option String
  unit : String
  series : List (Option String × Option Int)
deriving Repr, DecidableEq

/-- Dict update of the timeseries loop: append the record to its
geography's group, creating the group at the end on first sight
(Python dict insertion order). -/
def addToGroups (g : String) (r : Record) :
    List (String × List Record) → List (String × List Record)
  | [] => [(g, [r])]
  | (g0, rs) :: rest =>
      if g0 = g then (g0, rs ++ [r]) :: rest
      else (g0, rs) :: addToGroups g r rest

/-- The body of the timeseries loop: skip records with a falsy
geography code, otherwise add the record to its geography's group. -/
def groupStep (acc : List (String × List Record)) (r : Record) :
    List (String × List Record) :=
  match truthyStr r.geo_code with
  | some g => addToGroups g r acc
  | none => acc

/-- Lines 231–247, grouping layer: visit records in
`(geo_code, time_pos)` sorted order, skip falsy geography codes, and
group records per geography code in first-seen order.  Each group
carries the records whose fields feed the output series, in series
order. -/
def seriesGroups (records : List Record) : List (String × List Record) :=
  (List.insertionSort tsAscRel records).foldl groupStep []

/-- The output series built from one geography's group: the country
label comes from the group's first record (the record that created the
dict entry), and each record contributes a `(time_label, value)`
entry. -/
def toSeries (g : String) (rs : List Record) : Series :=
  { country_code := g
    country := match rs with
      | r :: _ => r.geo_label
      | [] => none
    unit := "% of GDP"
    series := rs.map (fun r => (r.time_label, r.value)) }

/-- `series_by_geo` as an insertion-ordered association list. -/
def series_by_geo (records : List Record) : List (String × Series) :=
  (seriesGroups records).map (fun grs => (grs.1, toSeries grs.1 grs.2))

/-- The `meta` dict returned by `parse_latest_and_timeseries`. -/
structure Meta where
  dim_ids : List String
  units_present : List String
  chosen_unit : Option String
  latest_time_code : String
  latest_time_label : String
deriving Repr, DecidableEq

/-- The triple returned by `parse_latest_and_timeseries`. -/
structure ParseResult where
  latest : List LatestOut
  series : List (String × Series)
  meta : Meta
deriving Repr, DecidableEq

/-- `parse_latest_and_timeseries(cube)` from `etl/eufacts.py`, lines
166–258, in source order: empty-value check, dimension catalog, time
check, latest period resolution, cell materialization, unit choice and
filter, the two projections and the metadata. -/
def parse_latest_and_timeseries (cube : Cube) : Except ParseErr ParseResult :=
  if cube.value.isEmpty then Except.error ParseErr.noValue
  else
    match build_dim_meta cube with
    | Except.error e => Except.error e
    | Except.ok dm =>
        match alookup dm "time" with
        | none => Except.error ParseErr.noTime
        | some timeMeta =>
            let latestTimePos : Int := (timeMeta.size : Int) - 1
            match invLookup timeMeta.index latestTimePos with
            | none => Except.error (ParseErr.badPos "time" latestTimePos)
            | some latestTimeCode =>
                match materializeCells cube dm cube.value with
                | Except.error e => Except.error e
                | Except.ok allRecords =>
                    Except.ok
                      { latest := latestProjection latestTimePos
                          (unitFilter allRecords)
                        series := series_by_geo (unitFilter allRecords)
                        meta :=
                          { dim_ids := cube.id
                            units_present := units_present (unitFilter allRecords)
                            chosen_unit := choose_pct_unit allRecords
                            latest_time_code := latestTimeCode
                            latest_time_label :=
                              (alookup timeMeta.labels latestTimeCode).getD
                                latestTimeCode } }

/-- Decidable equality of `Except` results, so concrete parser runs
can be checked by evaluation. -/
instance {e a : Type} [DecidableEq e] [DecidableEq a] : DecidableEq (Except e a) :=
  fun x y =>
    match x, y with
    | Except.error u, Except.error v =>
        if h : u = v then isTrue (congrArg Except.error h)
        else isFalse (fun hc => h (Except.error.inj hc))
    | Except.error _, Except.ok _ => isFalse (fun hc => Except.noConfusion hc)
    | Except.ok _, Except.error _ => isFalse (fun hc => Except.noConfusion hc)
    | Except.ok u, Except.ok v =>
        if h : u = v then isTrue (congrArg Except.ok h)
        else isFalse (fun hc => h (Except.ok.inj hc))

/-! ### Concrete cubes used as witnesses and counterexamples -/

/-- The end-to-end scenario cube of the specification:
`id=["unit","geo","time"]`, `size=[1,2,2]`, one unit `PC_GDP` labelled
`%`, geographies BE and DE, values `80, 60, 82, 65` at linear indices
`0..3`. -/
def cubeDemo : Cube :=
  { id := ["unit", "geo", "time"]
    size := [1, 2, 2]
    dimension :=
      [ ("unit", { index := [("PC_GDP", 0)]
                   label := [("PC_GDP", "%")]
                   length? := none })
      , ("geo", { index := [("BE", 0), ("DE", 1)]
                  label := [("BE", "Belgium"), ("DE", "Germany")]
                  length? := none })
      , ("time", { index := [("2024-Q1", 0), ("2024-Q2", 1)]
                   label := [("2024-Q1", "2024 Q1"), ("2024-Q2", "2024 Q2")]
                   length? := none }) ]
    value := [(0, some 80), (1, some 60), (2, some 82), (3, some 65)] }

/-- A cube with an empty value mapping (and an otherwise well-formed
catalog). -/
def cubeEmptyValue : Cube :=
  { id := ["time"]
    size := [1]
    dimension := [("time", { index := [("2024", 0)]
                             label := [("2024", "2024")]
                             length? := none })]
    value := [] }

/-- A cube with values but no dimension named `time`. -/
def cubeNoTime : Cube :=
  { id := ["geo"]
    size := [1]
    dimension := [("geo", { index := [("BE", 0)]
                            label := [("BE", "Belgium")]
                            length? := none })]
    value := [(0, some 1)] }

/-- A cube whose time dimension declares two positions but whose
records only populate position 0: the maximum observed time position
(0) differs from the last declared position (1). -/
def cubeSparseTime : Cube :=
  { id := ["unit", "geo", "time"]
    size := [1, 1, 2]
    dimension :=
      [ ("unit", { index := [("PC_GDP", 0)]
                   label := [("PC_GDP", "%")]
                   length? := none })
      , ("geo", { index := [("BE", 0)]
                  label := [("BE", "Belgium")]
                  length? := none })
      , ("time", { index := [("2024-Q1", 0), ("2024-Q2", 1)]
                   label := [("2024-Q1", "2024 Q1"), ("2024-Q2", "2024 Q2")]
                   length? := none }) ]
    value := [(0, some 80)] }

/-- The exact result of parsing the specification's end-to-end demo
cube (checked by evaluation below). -/
def demoResult : ParseResult :=
  { latest :=
      [ { country_code := some "DE", country := some "Germany"
          time := some "2024 Q2", value_pct_gdp := some 65 }
      , { country_code := some "BE", country := some "Belgium"
          time := some "2024 Q2", value_pct_gdp := some 60 } ]
    series :=
      [ ("BE", { country_code := "BE", country := some "Belgium"
                 unit := "% of GDP"
                 series := [(some "2024 Q1", some 80), (some "2024 Q2", some 60)] })
      , ("DE", { country_code := "DE", country := some "Germany"
                 unit := "% of GDP"
                 series := [(some "2024 Q1", some 82), (some "2024 Q2", some 65)] }) ]
    meta := { dim_ids := ["unit", "geo", "time"]
              units_present := ["PC_GDP"]
              chosen_unit := some "PC_GDP"
              latest_time_code := "2024-Q2"
              latest_time_label := "2024 Q2" } }

/-- Two records carrying the preferred unit code (used as a concrete
unit-filter input). -/
def demoRecsPct : List Record :=
  [ { value := some 80, unit_code := some "PC_GDP", unit_label := some "%"
      geo_code := some "BE", geo_label := some "Belgium"
      time_code := some "T0", time_label := some "T0", time_pos := some 0 }
  , { value := some 65, unit_code := some "XYZ", unit_label := some "index"
      geo_code := some "DE", geo_label := some "Germany"
      time_code := some "T0", time_label := some "T0", time_pos := some 0 } ]

/-- Two records with two unit codes, neither preference-listed nor
`%`-labelled: the cascade chooses none. -/
def demoRecsNoUnit : List Record :=
  [ { value := some 1, unit_code := some "AAA", unit_label := some "index"
      geo_code := some "BE", geo_label := some "Belgium"
      time_code := some "T0", time_label := some "T0", time_pos := some 0 }
  , { value := some 2, unit_code := some "BBB", unit_label := some "level"
      geo_code := some "BE", geo_label := some "Belgium"
      time_code := some "T0", time_label := some "T0", time_pos := some 0 } ]

/-- Modelled from the claim's words (C1): `a` may precede `b` iff
present values sort above missing values and, among present values,
the larger value sorts first. -/
def specLatestOrder (a b : LatestOut) : Bool :=
  match a.value_pct_gdp, b.value_pct_gdp with
  | some v, some w => decide (w ≤ v)
  | some _, none => true
  | none, some _ => false
  | none, none => true

/-- The order the code actually produces: missing-value records
precede all present-value records; among present values the larger
sorts first. -/
def amendedLatestOrder (a b : LatestOut) : Bool :=
  match a.value_pct_gdp, b.value_pct_gdp with
  | some v, some w => decide (w ≤ v)
  | some _, none => false
  | none, _ => true

/-- A present-value record (value 80). -/
def recPresent : Record :=
  { value := some 80, unit_code := some "PC_GDP", unit_label := some "%"
    geo_code := some "BE", geo_label := some "Belgium"
    time_code := some "T0", time_label := some "T0", time_pos := some 0 }

/-- A missing-value record. -/
def recMissing : Record :=
  { value := none, unit_code := some "PC_GDP", unit_label := some "%"
    geo_code := some "DE", geo_label := some "Germany"
    time_code := some "T0", time_label := some "T0", time_pos := some 0 }

/-! ### Lemmas about the timeseries grouping (claim C5) -/

/-- The record belongs to geography `g` (its truthy geo code is `g`). -/
def geoPred (g : String) (r : Record) : Bool :=
  truthyStr r.geo_code == some g

/-- The first-seen key-collection step corresponding to `groupStep`. -/
def keyStep (ks : List String) (r : Record) : List String :=
  match truthyStr r.geo_code with
  | some g => if g ∈ ks then ks else ks ++ [g]
  | none => ks

/-- Two records with the same geography and time position but different
units (no unit is chosen for them, so the unit filter keeps both). -/
def recDupA : Record :=
  { value := some 1, unit_code := some "AAA", unit_label := some "index"
    geo_code := some "BE", geo_label := some "Belgium"
    time_code := some "T0", time_label := some "T0", time_pos := some 0 }

/-- Companion record to `recDupA` with the other unit. -/
def recDupB : Record :=
  { value := some 2, unit_code := some "BBB", unit_label := some "level"
    geo_code := some "BE", geo_label := some "Belgium"
    time_code := some "T0", time_label := some "T0", time_pos := some 0 }

theorem valLE_decodeAux (idx : Nat) (ls : List Nat) :
    valLE (decodeAux idx ls) ls = idx % ls.prod := by
  induction ls generalizing idx with
  | nil => simp [decodeAux, valLE, Nat.mod_one]
  | cons s rest ih =>
      simp only [decodeAux, valLE, List.prod_cons, ih, Nat.mod_mul]

theorem decodeAux_length (idx : Nat) (ls : List Nat) :
    (decodeAux idx ls).length = ls.length := by
  induction ls generalizing idx with
  | nil => rfl
  | cons s rest ih => simp [decodeAux, ih]

theorem encodeCoords_concat (cs ss : List Nat) (c s : Nat)
    (h : cs.length = ss.length) :
    encodeCoords (cs ++ [c]) (ss ++ [s]) = encodeCoords cs ss * s + c := by
  induction cs generalizing ss with
  | nil =>
      cases ss with
      | nil => simp [encodeCoords]
      | cons b bs => simp at h
  | cons c0 cs ih =>
      cases ss with
      | nil => simp at h
      | cons s0 ss =>
          simp only [List.length_cons, Nat.succ_inj] at h
          simp only [List.cons_append, encodeCoords, List.append_eq]
          rw [ih ss h, List.prod_append, List.prod_cons, List.prod_nil]
          ring

theorem encodeCoords_reverse (ds ls : List Nat) (h : ds.length = ls.length) :
    encodeCoords ds.reverse ls.reverse = valLE ds ls := by
  induction ds generalizing ls with
  | nil =>
      cases ls with
      | nil => rfl
      | cons s ss => simp at h
  | cons d ds ih =>
      cases ls with
      | nil => simp at h
      | cons s ss =>
          simp only [List.length_cons, Nat.succ_inj] at h
          simp only [List.reverse_cons, valLE]
          rw [encodeCoords_concat _ _ _ _ (by simp [h]), ih ss h]
          ring

theorem encode_decode (idx : Nat) (sizes : List Nat) :
    encodeCoords (linear_index_to_coords idx sizes) sizes = idx % sizes.prod := by
  have h := encodeCoords_reverse (decodeAux idx sizes.reverse) sizes.reverse
    (by simp [decodeAux_length])
  simp only [List.reverse_reverse] at h
  rw [linear_index_to_coords, h, valLE_decodeAux, List.prod_reverse]

theorem decodeAux_lt (idx : Nat) (ls : List Nat) (hpos : ∀ s ∈ ls, 0 < s) :
    List.Forall₂ (fun c s => c < s) (decodeAux idx ls) ls := by
  induction ls generalizing idx with
  | nil => exact List.Forall₂.nil
  | cons s rest ih =>
      refine List.Forall₂.cons ?_ (ih _ (fun x hx => hpos x (by simp [hx])))
      exact Nat.mod_lt _ (hpos s (by simp))

theorem coords_inRange (idx : Nat) (sizes : List Nat)
    (hpos : ∀ s ∈ sizes, 0 < s) :
    List.Forall₂ (fun c s => c < s) (linear_index_to_coords idx sizes) sizes := by
  have h := decodeAux_lt idx sizes.reverse
    (fun s hs => hpos s (by simpa using hs))
  have h2 : List.Forall₂ (fun c s => c < s)
      (decodeAux idx sizes.reverse).reverse sizes.reverse.reverse :=
    List.forall₂_reverse_iff.mpr h
  simpa [linear_index_to_coords] using h2

theorem decodeAux_mod (idx : Nat) (ls : List Nat) :
    decodeAux (idx % ls.prod) ls = decodeAux idx ls := by
  induction ls generalizing idx with
  | nil => rfl
  | cons s rest ih =>
      simp only [decodeAux, List.prod_cons]
      rw [Nat.mod_mod_of_dvd idx (dvd_mul_right s rest.prod),
        Nat.mod_mul_right_div_self, ih]

theorem chLt_eq_false_of (a b : Char) (h : chLt a b = true) : chLt b a = false := by
  simp only [chLt, decide_eq_true_eq] at h
  simp only [chLt, decide_eq_false_iff_not]
  omega

theorem chLt_trans {a b c : Char} (h1 : chLt a b = true) (h2 : chLt b c = true) :
    chLt a c = true := by
  simp only [chLt, decide_eq_true_eq] at h1 h2 ⊢
  omega

theorem chEq_of_not_lt {a b : Char} (h1 : chLt a b = false) (h2 : chLt b a = false) :
    a = b := by
  simp only [chLt, decide_eq_false_iff_not] at h1 h2
  have h : a.toNat = b.toNat := by omega
  apply Char.ext
  apply UInt32.ext
  simpa [Char.toNat, UInt32.toNat] using h

theorem chListLt_asymm : ∀ a b : List Char,
    chListLt a b = true → chListLt b a = false
  | [], [], h => by simp [chListLt] at h
  | [], _ :: _, _ => by simp [chListLt]
  | _ :: _, [], h => by simp [chListLt] at h
  | a :: as, b :: bs, h => by
      simp only [chListLt] at h ⊢
      by_cases hab : chLt a b = true
      · rw [chLt_eq_false_of a b hab]
        simp [hab]
      · rw [Bool.not_eq_true] at hab
        simp only [hab, if_false] at h
        by_cases hba : chLt b a = true
        · simp [hba] at h
        · rw [Bool.not_eq_true] at hba
          simp only [hba, hab, if_false]
          exact chListLt_asymm as bs (by simpa [hba] using h)

theorem chListLt_trans : ∀ a b c : List Char,
    chListLt a b = true → chListLt b c = true → chListLt a c = true
  | [], [], _, h, _ => by simp [chListLt] at h
  | [], _ :: _, [], _, h => by simp [chListLt] at h
  | [], _ :: _, _ :: _, _, _ => by simp [chListLt]
  | _ :: _, [], _, h, _ => by simp [chListLt] at h
  | _ :: _, _ :: _, [], _, h => by simp [chListLt] at h
  | a :: as, b :: bs, c :: cs, h1, h2 => by
      simp only [chListLt] at h1 h2 ⊢
      by_cases hab : chLt a b = true
      · by_cases hbc : chLt b c = true
        · simp [chLt_trans hab hbc]
        · rw [Bool.not_eq_true] at hbc
          by_cases hcb : chLt c b = true
          · simp [hbc, hcb] at h2
          · rw [Bool.not_eq_true] at hcb
            have he : b = c := chEq_of_not_lt hbc hcb
            subst he
            simp [hab]
      · rw [Bool.not_eq_true] at hab
        by_cases hba : chLt b a = true
        · simp [hab, hba] at h1
        · rw [Bool.not_eq_true] at hba
          have he : a = b := chEq_of_not_lt hab hba
          subst he
          by_cases hac : chLt a c = true
          · simp [hac]
          · rw [Bool.not_eq_true] at hac
            by_cases hca : chLt c a = true
            · simp [hac, hca] at h2
            · rw [Bool.not_eq_true] at hca
              simp only [hac, hca, if_false]
              exact chListLt_trans as bs cs (by simpa [hab, hba] using h1)
                (by simpa [hac, hca] using h2)

theorem chListLt_connex : ∀ a b : List Char,
    chListLt a b = false → chListLt b a = false → a = b
  | [], [], _, _ => rfl
  | [], _ :: _, h, _ => by simp [chListLt] at h
  | _ :: _, [], _, h => by simp [chListLt] at h
  | a :: as, b :: bs, h1, h2 => by
      simp only [chListLt] at h1 h2
      by_cases hab : chLt a b = true
      · simp [hab] at h1
      · by_cases hba : chLt b a = true
        · simp [hba] at h2
        · rw [Bool.not_eq_true] at hab hba
          have he : a = b := chEq_of_not_lt hab hba
          simp only [hab, hba, if_false] at h1 h2
          rw [he, chListLt_connex as bs h1 h2]

theorem strLt_asymm {a b : String} (h : strLt a b = true) : strLt b a = false :=
  chListLt_asymm _ _ h

theorem strLt_trans {a b c : String} (h1 : strLt a b = true)
    (h2 : strLt b c = true) : strLt a c = true :=
  chListLt_trans _ _ _ h1 h2

theorem strLt_connex {a b : String} (h1 : strLt a b = false)
    (h2 : strLt b a = false) : a = b :=
  String.ext (chListLt_connex _ _ h1 h2)

theorem natLt_asymm (x y : Nat) (h : decide (x < y) = true) :
    decide (y < x) = false := by
  simp only [decide_eq_true_eq] at h
  simp only [decide_eq_false_iff_not]
  omega

theorem natLt_trans (x y z : Nat) (h1 : decide (x < y) = true)
    (h2 : decide (y < z) = true) : decide (x < z) = true := by
  simp only [decide_eq_true_eq] at h1 h2 ⊢
  omega

theorem natLt_connex (x y : Nat) (h1 : decide (x < y) = false)
    (h2 : decide (y < x) = false) : x = y := by
  simp only [decide_eq_false_iff_not] at h1 h2
  omega

theorem intLt_asymm (x y : Int) (h : decide (x < y) = true) :
    decide (y < x) = false := by
  simp only [decide_eq_true_eq] at h
  simp only [decide_eq_false_iff_not]
  omega

theorem intLt_trans (x y z : Int) (h1 : decide (x < y) = true)
    (h2 : decide (y < z) = true) : decide (x < z) = true := by
  simp only [decide_eq_true_eq] at h1 h2 ⊢
  omega

theorem mem_units_present (x : String) (records : List Record) :
    x ∈ units_present records ↔ x ∈ unitCodes records := by
  unfold units_present
  rw [List.mem_dedup, List.mem_insertionSort]

theorem units_present_perm (records : List Record) :
    (units_present records).Perm (unitCodes records).dedup :=
  (List.perm_insertionSort _ _).dedup

theorem find?_congr (p q : α → Bool) (l : List α)
    (h : ∀ x ∈ l, p x = q x) : l.find? p = l.find? q := by
  induction l with
  | nil => rfl
  | cons a l ih =>
      simp only [List.find?]
      rw [h a (by simp)]
      cases hq : q a
      · exact ih (fun x hx => h x (by simp [hx]))
      · rfl

theorem find?_filter (p q : α → Bool) (l : List α) :
    (l.filter q).find? p = l.find? (fun x => q x && p x) := by
  induction l with
  | nil => rfl
  | cons a l ih =>
      simp only [List.filter, List.find?]
      cases hq : q a
      · simpa using ih
      · simp only [List.find?, Bool.true_and]
        cases hp : p a
        · simpa using ih
        · rfl

theorem labelOfFirst_cons_ne (r : Record) (rest : List Record) (c : String)
    (h : truthyStr r.unit_code ≠ some c) :
    labelOfFirst (r :: rest) c = labelOfFirst rest c := by
  unfold labelOfFirst
  simp only [List.find?]
  have : (truthyStr r.unit_code == some c) = false := by
    simpa using h
  rw [this]

/-- The scan of the first-seen `unit_labels` dict for a `%` label
agrees with scanning the raw unit-code sequence (outside `seen`) with
the first-record label of each code. -/
theorem find_unitLabelsAux (records : List Record) : ∀ seen : List String,
    ((unitLabelsAux seen records).find? (fun cl => hasPctLabel cl.2)).map
        (fun cl => cl.1)
      = ((unitCodes records).filter (fun c => decide (c ∉ seen))).find?
          (fun c => hasPctLabel (labelOfFirst records c)) := by
  induction records with
  | nil => intro seen; rfl
  | cons r rest ih =>
      intro seen
      cases htr : truthyStr r.unit_code with
      | none =>
          simp only [unitLabelsAux, htr, unitCodes, List.filterMap_cons, htr]
          rw [ih seen]
          apply find?_congr
          intro c _
          rw [labelOfFirst_cons_ne r rest c (by simp [htr])]
      | some uc =>
          simp only [unitLabelsAux, htr, unitCodes, List.filterMap_cons, htr]
          by_cases hseen : uc ∈ seen
          · rw [if_pos hseen, List.filter_cons, if_neg (by simp [hseen]), ih seen]
            apply find?_congr
            intro c hcmem
            have hc : c ∉ seen := by
              have := List.of_mem_filter hcmem
              simpa using this
            have hne : uc ≠ c := fun he => hc (he ▸ hseen)
            rw [labelOfFirst_cons_ne r rest c (by simp [htr, hne])]
          · have hfirst : labelOfFirst (r :: rest) uc = r.unit_label := by
              unfold labelOfFirst
              simp [List.find?, htr]
            rw [if_neg hseen, List.filter_cons, if_pos (by simp [hseen])]
            simp only [List.find?, hfirst]
            cases hq : hasPctLabel r.unit_label
            · simp only [Bool.false_eq_true, if_false]
              rw [ih (uc :: seen), find?_filter, find?_filter]
              apply find?_congr
              intro c _
              by_cases hcu : c = uc
              · subst hcu
                have h1 : (decide (c ∉ c :: seen)) = false := by simp
                have h2 : hasPctLabel (labelOfFirst (r :: rest) c) = false := by
                  rw [hfirst, hq]
                rw [h1, h2]
                simp
              · have h1 : (decide (c ∉ uc :: seen)) = decide (c ∉ seen) := by
                  simp [List.mem_cons, hcu]
                rw [h1, labelOfFirst_cons_ne r rest c
                  (by rw [htr]; exact fun he => hcu (Option.some.inj he).symm)]
            · simp

/-- Inversion of a successful parse: every `ok` result is built from a
successful dimension catalog, time lookup, latest-period resolution and
materialization, with both projections applied to the unit-filtered
record list. -/
theorem parse_ok_elim (cube : Cube) (res : ParseResult)
    (h : parse_latest_and_timeseries cube = Except.ok res) :
    ∃ dm timeMeta latestTimeCode recs,
      build_dim_meta cube = Except.ok dm ∧
      alookup dm "time" = some timeMeta ∧
      invLookup timeMeta.index ((timeMeta.size : Int) - 1) = some latestTimeCode ∧
      materializeCells cube dm cube.value = Except.ok recs ∧
      res.latest = latestProjection ((timeMeta.size : Int) - 1) (unitFilter recs) ∧
      res.series = series_by_geo (unitFilter recs) ∧
      res.meta = { dim_ids := cube.id
                   units_present := units_present (unitFilter recs)
                   chosen_unit := choose_pct_unit recs
                   latest_time_code := latestTimeCode
                   latest_time_label :=
                     (alookup timeMeta.labels latestTimeCode).getD latestTimeCode } := by
  unfold parse_latest_and_timeseries at h
  by_cases hv : cube.value.isEmpty
  · rw [if_pos hv] at h
    cases h
  · rw [if_neg hv] at h
    cases hbd : build_dim_meta cube with
    | error e => rw [hbd] at h; cases h
    | ok dm =>
        rw [hbd] at h
        dsimp only at h
        cases htm : alookup dm "time" with
        | none => rw [htm] at h; cases h
        | some timeMeta =>
            rw [htm] at h
            dsimp only at h
            cases hic : invLookup timeMeta.index ((timeMeta.size : Int) - 1) with
            | none => rw [hic] at h; cases h
            | some latestTimeCode =>
                rw [hic] at h
                dsimp only at h
                cases hmc : materializeCells cube dm cube.value with
                | error e => rw [hmc] at h; cases h
                | ok recs =>
                    rw [hmc] at h
                    dsimp only at h
                    cases h
                    exact ⟨dm, timeMeta, latestTimeCode, recs, rfl, htm, hic,
                      hmc, rfl, rfl, rfl⟩

/-- Per-dimension lookup through the catalog builder: each dimension
name of `cube.id` whose category exists maps to exactly the catalog
the per-dimension formula produces. -/
theorem buildDimsAux_lookup (dimension : List (String × Category)) :
    ∀ (ids : List String) (dm : List (String × DimMeta)) (d : String)
      (cat : Category),
      buildDimsAux dimension ids = Except.ok dm → d ∈ ids →
      alookup dimension d = some cat →
      alookup dm d = some (buildDimMetaOne cat) := by
  intro ids
  induction ids with
  | nil => intro dm d cat _ hmem; cases hmem
  | cons d0 rest ih =>
      intro dm d cat hok hmem hcat
      unfold buildDimsAux at hok
      cases hd0 : alookup dimension d0 with
      | none => rw [hd0] at hok; cases hok
      | some cat0 =>
          rw [hd0] at hok
          cases hrest : buildDimsAux dimension rest with
          | error e => rw [hrest] at hok; cases hok
          | ok ms =>
              rw [hrest] at hok
              cases hok
              by_cases hdd : d = d0
              · subst hdd
                rw [hcat] at hd0
                cases hd0
                simp [alookup, List.find?]
              · have hmem2 : d ∈ rest := by
                  cases List.mem_cons.mp hmem with
                  | inl he => exact absurd he hdd
                  | inr hm => exact hm
                have := ih ms d cat hrest hmem2 hcat
                simp only [alookup, List.find?]
                have hne : (d0 == d) = false := by
                  simp [Ne.symm hdd]
                rw [hne]
                exact this

theorem intLt_connex (x y : Int) (h1 : decide (x < y) = false)
    (h2 : decide (y < x) = false) : x = y := by
  simp only [decide_eq_false_iff_not] at h1 h2
  omega

theorem nltB_total {κ : Type} (lt : κ → κ → Bool)
    (hasym : ∀ x y, lt x y = true → lt y x = false) (x y : κ) :
    lt x y = false ∨ lt y x = false := by
  by_cases h : lt x y = true
  · exact Or.inr (hasym x y h)
  · exact Or.inl (by simpa using h)

theorem nltB_trans {κ : Type} (lt : κ → κ → Bool)
    (htr : ∀ x y z, lt x y = true → lt y z = true → lt x z = true)
    (hconn : ∀ x y, lt x y = false → lt y x = false → x = y)
    (x y z : κ) (h1 : lt x y = false) (h2 : lt y z = false) :
    lt x z = false := by
  by_cases hxz : lt x z = true
  · by_cases hzy : lt z y = true
    · have : lt x y = true := htr x z y hxz hzy
      rw [this] at h1
      cases h1
    · have hzy2 : lt z y = false := by simpa using hzy
      have he : y = z := hconn y z h2 hzy2
      rw [← he] at hxz
      rw [hxz] at h1
      cases h1
  · simpa using hxz

section LexLemmas

variable {α β : Type} [DecidableEq α] [DecidableEq β]
variable {ltA : α → α → Bool} {ltB : β → β → Bool}

theorem optLt_asymm (hA : ∀ x y, ltA x y = true → ltA y x = false) :
    ∀ x y : Option α, optLt ltA x y = true → optLt ltA y x = false
  | none, none, h => by simp [optLt] at h
  | none, some _, _ => by simp [optLt]
  | some _, none, h => by simp [optLt] at h
  | some a, some b, h => hA a b h

theorem optLt_trans (hA : ∀ x y z, ltA x y = true → ltA y z = true → ltA x z = true) :
    ∀ x y z : Option α, optLt ltA x y = true → optLt ltA y z = true →
      optLt ltA x z = true
  | none, none, _, h1, _ => by simp [optLt] at h1
  | none, some _, none, _, h2 => by simp [optLt] at h2
  | none, some _, some _, _, _ => by simp [optLt]
  | some _, none, _, h1, _ => by simp [optLt] at h1
  | some _, some _, none, _, h2 => by simp [optLt] at h2
  | some a, some b, some c, h1, h2 => hA a b c h1 h2

theorem optLt_connex (hA : ∀ x y, ltA x y = false → ltA y x = false → x = y) :
    ∀ x y : Option α, optLt ltA x y = false → optLt ltA y x = false → x = y
  | none, none, _, _ => rfl
  | none, some _, h1, _ => by simp [optLt] at h1
  | some _, none, _, h2 => by simp [optLt] at h2
  | some a, some b, h1, h2 => by rw [hA a b h1 h2]

theorem lt_irrefl_of_asymm {lt : γ → γ → Bool}
    (h : ∀ x y, lt x y = true → lt y x = false) (x : γ) : lt x x = false := by
  by_cases hx : lt x x = true
  · exact h x x hx
  · simpa using hx

theorem pairLt_asymm (hA : ∀ x y, ltA x y = true → ltA y x = false)
    (hB : ∀ x y, ltB x y = true → ltB y x = false)
    (p q : α × β) (h : pairLt ltA ltB p q = true) : pairLt ltA ltB q p = false := by
  simp only [pairLt, Bool.or_eq_true, Bool.and_eq_true, decide_eq_true_eq] at h
  simp only [pairLt, Bool.or_eq_false_iff, Bool.and_eq_false_iff]
  rcases h with h | ⟨he, hb⟩
  · refine ⟨hA _ _ h, Or.inl ?_⟩
    simp only [decide_eq_false_iff_not]
    intro he
    rw [he] at h
    exact absurd (lt_irrefl_of_asymm hA p.1) (by simp [h])
  · constructor
    · rw [← he]
      exact lt_irrefl_of_asymm hA p.1
    · exact Or.inr (hB _ _ hb)

theorem pairLt_trans (hA : ∀ x y z, ltA x y = true → ltA y z = true → ltA x z = true)
    (hAc : ∀ x y, ltA x y = false → ltA y x = false → x = y)
    (hAa : ∀ x y, ltA x y = true → ltA y x = false)
    (hB : ∀ x y z, ltB x y = true → ltB y z = true → ltB x z = true)
    (p q r : α × β) (h1 : pairLt ltA ltB p q = true)
    (h2 : pairLt ltA ltB q r = true) : pairLt ltA ltB p r = true := by
  simp only [pairLt, Bool.or_eq_true, Bool.and_eq_true, decide_eq_true_eq] at h1 h2 ⊢
  rcases h1 with h1 | ⟨he1, hb1⟩
  · rcases h2 with h2 | ⟨he2, _⟩
    · exact Or.inl (hA _ _ _ h1 h2)
    · rw [← he2]
      exact Or.inl h1
  · rcases h2 with h2 | ⟨he2, hb2⟩
    · rw [he1]
      exact Or.inl h2
    · exact Or.inr ⟨he1.trans he2, hB _ _ _ hb1 hb2⟩

theorem pairLt_connex (hAc : ∀ x y, ltA x y = false → ltA y x = false → x = y)
    (hBc : ∀ x y, ltB x y = false → ltB y x = false → x = y)
    (p q : α × β) (h1 : pairLt ltA ltB p q = false)
    (h2 : pairLt ltA ltB q p = false) : p = q := by
  simp only [pairLt, Bool.or_eq_false_iff, Bool.and_eq_false_iff,
    decide_eq_false_iff_not] at h1 h2
  obtain ⟨ha1, h1⟩ := h1
  obtain ⟨ha2, h2⟩ := h2
  have he : p.1 = q.1 := hAc _ _ ha1 ha2
  rcases h1 with h1 | h1
  · exact absurd he h1
  · rcases h2 with h2 | h2
    · exact absurd he.symm h2
    · exact Prod.ext he (hBc _ _ h1 h2)

end LexLemmas

theorem latKeyLt_asymm (p q : Nat × Int) (h : latKeyLt p q = true) :
    latKeyLt q p = false :=
  pairLt_asymm natLt_asymm intLt_asymm p q h

theorem latKeyLt_trans (p q r : Nat × Int) (h1 : latKeyLt p q = true)
    (h2 : latKeyLt q r = true) : latKeyLt p r = true :=
  pairLt_trans natLt_trans natLt_connex natLt_asymm intLt_trans p q r h1 h2

theorem latKeyLt_connex (p q : Nat × Int) (h1 : latKeyLt p q = false)
    (h2 : latKeyLt q p = false) : p = q :=
  pairLt_connex natLt_connex intLt_connex p q h1 h2

instance : IsTotal Record latDescRel :=
  ⟨fun a b => nltB_total latKeyLt latKeyLt_asymm (latestKey a) (latestKey b)⟩

instance : IsTrans Record latDescRel :=
  ⟨fun a b c h1 h2 => nltB_trans latKeyLt latKeyLt_trans latKeyLt_connex
    (latestKey a) (latestKey b) (latestKey c) h1 h2⟩

theorem truthyStr_eq_some {o : Option String} {g : String}
    (h : truthyStr o = some g) : o = some g := by
  cases o with
  | none => simp [truthyStr] at h
  | some s =>
      by_cases he : s.data.isEmpty
      · simp [truthyStr, he] at h
      · simp [truthyStr, he] at h
        rw [h]

theorem alookup_cons (k : String) (v : α) (m : List (String × α)) (k0 : String) :
    alookup ((k, v) :: m) k0 = if k = k0 then some v else alookup m k0 := by
  simp only [alookup, List.find?]
  by_cases h : k = k0
  · have hb : (k == k0) = true := by simp [h]
    rw [if_pos h, hb]
    rfl
  · have hb : (k == k0) = false := by simp [h]
    rw [if_neg h, hb]

theorem filter_cons_true {p : α → Bool} {a : α} (l : List α) (h : p a = true) :
    (a :: l).filter p = a :: l.filter p := by
  simp [List.filter_cons, h]

theorem filter_cons_false {p : α → Bool} {a : α} (l : List α) (h : p a = false) :
    (a :: l).filter p = l.filter p := by
  simp [List.filter_cons, h]

theorem groupStep_eq_add {r : Record} {g : String}
    (h : truthyStr r.geo_code = some g) (acc : List (String × List Record)) :
    groupStep acc r = addToGroups g r acc := by
  unfold groupStep
  rw [h]

theorem groupStep_eq_skip {r : Record}
    (h : truthyStr r.geo_code = none) (acc : List (String × List Record)) :
    groupStep acc r = acc := by
  unfold groupStep
  rw [h]

theorem alookup_addToGroups (g : String) (r : Record) :
    ∀ (acc : List (String × List Record)) (g0 : String),
      alookup (addToGroups g r acc) g0 =
        if g0 = g then some (((alookup acc g).getD []) ++ [r])
        else alookup acc g0 := by
  intro acc
  induction acc with
  | nil =>
      intro g0
      unfold addToGroups
      rw [alookup_cons]
      by_cases h : g0 = g
      · subst h
        rw [if_pos rfl, if_pos rfl]
        simp [alookup]
      · rw [if_neg (fun he => h he.symm), if_neg h]
  | cons p rest ih =>
      intro g0
      obtain ⟨g1, rs1⟩ := p
      unfold addToGroups
      by_cases h1 : g1 = g
      · subst h1
        rw [if_pos rfl]
        by_cases h0 : g1 = g0
        · subst h0
          simp [alookup_cons]
        · have h0s : ¬ (g0 = g1) := fun he => h0 he.symm
          rw [alookup_cons, if_neg h0, if_neg h0s, alookup_cons, if_neg h0]
      · rw [if_neg h1]
        rw [alookup_cons]
        by_cases h0 : g1 = g0
        · subst h0
          have hng : ¬ (g1 = g) := h1
          rw [if_pos rfl, if_neg hng, alookup_cons, if_pos rfl]
        · have h0s : ¬ (g0 = g1) := fun he => h0 he.symm
          rw [if_neg h0, ih g0]
          by_cases hg : g0 = g
          · subst hg
            rw [if_pos rfl, if_pos rfl, alookup_cons, if_neg h1]
          · rw [if_neg hg, if_neg hg, alookup_cons, if_neg h0]

theorem keys_addToGroups (g : String) (r : Record) :
    ∀ acc : List (String × List Record),
      (addToGroups g r acc).map Prod.fst =
        if g ∈ acc.map Prod.fst then acc.map Prod.fst
        else acc.map Prod.fst ++ [g] := by
  intro acc
  induction acc with
  | nil => simp [addToGroups]
  | cons p rest ih =>
      obtain ⟨g1, rs1⟩ := p
      unfold addToGroups
      by_cases h1 : g1 = g
      · subst h1
        simp [List.mem_cons]
      · rw [if_neg h1]
        simp only [List.map_cons, ih]
        have hmem : (g ∈ g1 :: rest.map Prod.fst) ↔ (g ∈ rest.map Prod.fst) := by
          simp [List.mem_cons, Ne.symm h1]
        by_cases hg : g ∈ rest.map Prod.fst
        · rw [if_pos hg, if_pos (hmem.mpr hg)]
        · rw [if_neg hg, if_neg (fun hc => hg (hmem.mp hc))]
          simp

theorem foldl_groupStep_lookup_some :
    ∀ (l : List Record) (acc : List (String × List Record)) (g : String)
      (rs : List Record),
      alookup acc g = some rs →
      alookup (l.foldl groupStep acc) g = some (rs ++ l.filter (geoPred g)) := by
  intro l
  induction l with
  | nil =>
      intro acc g rs h
      simpa using h
  | cons r l ih =>
      intro acc g rs h
      rw [List.foldl_cons]
      cases htr : truthyStr r.geo_code with
      | none =>
          have hp : geoPred g r = false := by
            simp [geoPred, htr]
          rw [groupStep_eq_skip htr, filter_cons_false l hp]
          exact ih acc g rs h
      | some g1 =>
          rw [groupStep_eq_add htr]
          by_cases hg : g1 = g
          · subst hg
            have hp : geoPred g1 r = true := by
              simp [geoPred, htr]
            rw [filter_cons_true l hp]
            have hlook : alookup (addToGroups g1 r acc) g1
                = some (rs ++ [r]) := by
              rw [alookup_addToGroups, if_pos rfl, h]
              rfl
            rw [ih (addToGroups g1 r acc) g1 (rs ++ [r]) hlook]
            simp
          · have hp : geoPred g r = false := by
              simp [geoPred, htr]
              exact hg
            rw [filter_cons_false l hp]
            have hlook : alookup (addToGroups g1 r acc) g = some rs := by
              rw [alookup_addToGroups, if_neg (fun he => hg he.symm)]
              exact h
            exact ih (addToGroups g1 r acc) g rs hlook

theorem foldl_groupStep_lookup_none :
    ∀ (l : List Record) (acc : List (String × List Record)) (g : String),
      alookup acc g = none →
      alookup (l.foldl groupStep acc) g =
        if l.filter (geoPred g) = [] then none
        else some (l.filter (geoPred g)) := by
  intro l
  induction l with
  | nil =>
      intro acc g h
      simpa using h
  | cons r l ih =>
      intro acc g h
      rw [List.foldl_cons]
      cases htr : truthyStr r.geo_code with
      | none =>
          have hp : geoPred g r = false := by
            simp [geoPred, htr]
          rw [groupStep_eq_skip htr, filter_cons_false l hp]
          exact ih acc g h
      | some g1 =>
          rw [groupStep_eq_add htr]
          by_cases hg : g1 = g
          · subst hg
            have hp : geoPred g1 r = true := by
              simp [geoPred, htr]
            rw [filter_cons_true l hp]
            have hlook : alookup (addToGroups g1 r acc) g1 = some [r] := by
              rw [alookup_addToGroups, if_pos rfl, h]
              rfl
            rw [foldl_groupStep_lookup_some l (addToGroups g1 r acc) g1 [r] hlook]
            rw [if_neg (List.cons_ne_nil r (l.filter (geoPred g1)))]
            simp
          · have hp : geoPred g r = false := by
              simp [geoPred, htr]
              exact hg
            rw [filter_cons_false l hp]
            have hlook : alookup (addToGroups g1 r acc) g = none := by
              rw [alookup_addToGroups, if_neg (fun he => hg he.symm)]
              exact h
            exact ih (addToGroups g1 r acc) g hlook

theorem keyStep_eq_skip {r : Record} (h : truthyStr r.geo_code = none)
    (ks : List String) : keyStep ks r = ks := by
  unfold keyStep
  rw [h]

theorem keyStep_eq_ins {r : Record} {g : String}
    (h : truthyStr r.geo_code = some g) (ks : List String) :
    keyStep ks r = if g ∈ ks then ks else ks ++ [g] := by
  unfold keyStep
  rw [h]

theorem foldl_groupStep_keys :
    ∀ (l : List Record) (acc : List (String × List Record)),
      (l.foldl groupStep acc).map Prod.fst =
        l.foldl keyStep (acc.map Prod.fst) := by
  intro l
  induction l with
  | nil => intro acc; rfl
  | cons r l ih =>
      intro acc
      rw [List.foldl_cons, List.foldl_cons]
      cases htr : truthyStr r.geo_code with
      | none => rw [groupStep_eq_skip htr, keyStep_eq_skip htr]; exact ih acc
      | some g =>
          rw [groupStep_eq_add htr, keyStep_eq_ins htr,
            ih (addToGroups g r acc), keys_addToGroups]

theorem strLt_asymm2 (x y : String) (h : strLt x y = true) :
    strLt y x = false :=
  strLt_asymm h

theorem strLt_trans2 (x y z : String) (h1 : strLt x y = true)
    (h2 : strLt y z = true) : strLt x z = true :=
  strLt_trans h1 h2

theorem strLt_connex2 (x y : String) (h1 : strLt x y = false)
    (h2 : strLt y x = false) : x = y :=
  strLt_connex h1 h2

theorem tsKeyLt_asymm (p q : Option String × Option Nat)
    (h : tsKeyLt p q = true) : tsKeyLt q p = false :=
  pairLt_asymm (optLt_asymm strLt_asymm2) (optLt_asymm natLt_asymm) p q h

theorem tsKeyLt_trans (p q r : Option String × Option Nat)
    (h1 : tsKeyLt p q = true) (h2 : tsKeyLt q r = true) :
    tsKeyLt p r = true :=
  pairLt_trans (optLt_trans strLt_trans2) (optLt_connex strLt_connex2)
    (optLt_asymm strLt_asymm2) (optLt_trans natLt_trans) p q r h1 h2

theorem tsKeyLt_connex (p q : Option String × Option Nat)
    (h1 : tsKeyLt p q = false) (h2 : tsKeyLt q p = false) : p = q :=
  pairLt_connex (optLt_connex strLt_connex2) (optLt_connex natLt_connex)
    p q h1 h2

instance : IsTotal Record tsAscRel :=
  ⟨fun a b => nltB_total tsKeyLt tsKeyLt_asymm (tsKey b) (tsKey a)⟩

instance : IsTrans Record tsAscRel :=
  ⟨fun a b c h1 h2 => nltB_trans tsKeyLt tsKeyLt_trans tsKeyLt_connex
    (tsKey c) (tsKey b) (tsKey a) h2 h1⟩

theorem foldl_keyStep_sorted :
    ∀ l : List Record, List.Pairwise tsAscRel l →
      ∀ ks : List String,
        List.Pairwise (fun a b => strLt a b = true) ks →
        (∀ k ∈ ks, ∀ r ∈ l, ∀ g, truthyStr r.geo_code = some g →
          strLt k g = true ∨ k = g) →
        List.Pairwise (fun a b => strLt a b = true) (l.foldl keyStep ks) := by
  intro l
  induction l with
  | nil =>
      intro _ ks hks _
      simpa using hks
  | cons r l ih =>
      intro hp ks hks hinv
      rw [List.pairwise_cons] at hp
      obtain ⟨hr, hl⟩ := hp
      rw [List.foldl_cons]
      cases htr : truthyStr r.geo_code with
      | none =>
          rw [keyStep_eq_skip htr]
          exact ih hl ks hks
            (fun k hk r2 hr2 g hg => hinv k hk r2 (List.mem_cons_of_mem r hr2) g hg)
      | some g =>
          rw [keyStep_eq_ins htr]
          have hA : ∀ r2 ∈ l, ∀ g2, truthyStr r2.geo_code = some g2 →
              strLt g g2 = true ∨ g = g2 := by
            intro r2 hr2 g2 hg2
            have hrel := hr r2 hr2
            unfold tsAscRel at hrel
            have hgr : r.geo_code = some g := truthyStr_eq_some htr
            have hgr2 : r2.geo_code = some g2 := truthyStr_eq_some hg2
            have hgeo : optLt strLt r2.geo_code r.geo_code = false := by
              unfold tsKeyLt tsKey pairLt at hrel
              simp only [Bool.or_eq_false_iff] at hrel
              exact hrel.1
            rw [hgr, hgr2] at hgeo
            have hgg : strLt g2 g = false := by simpa [optLt] using hgeo
            by_cases hlt : strLt g g2 = true
            · exact Or.inl hlt
            · have h2 : strLt g g2 = false := by simpa using hlt
              exact Or.inr (strLt_connex h2 hgg)
          by_cases hg : g ∈ ks
          · rw [if_pos hg]
            exact ih hl ks hks
              (fun k hk r2 hr2 g2 hg2 => hinv k hk r2 (List.mem_cons_of_mem r hr2) g2 hg2)
          · rw [if_neg hg]
            refine ih hl (ks ++ [g]) ?_ ?_
            · rw [List.pairwise_append]
              refine ⟨hks, List.pairwise_singleton _ _, ?_⟩
              intro k hk g2 hg2
              rw [List.mem_singleton] at hg2
              subst hg2
              rcases hinv k hk r (List.mem_cons_self r l) g2 htr with h | h
              · exact h
              · exact absurd (h ▸ hk) hg
            · intro k hk r2 hr2 g2 hg2
              rw [List.mem_append, List.mem_singleton] at hk
              rcases hk with hk | hk
              · exact hinv k hk r2 (List.mem_cons_of_mem r hr2) g2 hg2
              · subst hk
                exact hA r2 hr2 g2 hg2

theorem seriesGroups_keys_sorted (records : List Record) :
    List.Pairwise (fun a b => strLt a b = true)
      ((seriesGroups records).map Prod.fst) := by
  unfold seriesGroups
  rw [foldl_groupStep_keys]
  have hp : List.Pairwise tsAscRel (List.insertionSort tsAscRel records) :=
    List.sorted_insertionSort tsAscRel records
  exact foldl_keyStep_sorted _ hp [] List.Pairwise.nil (by intro k hk; cases hk)

theorem alookup_eq_none_iff (m : List (String × α)) (k : String) :
    alookup m k = none ↔ k ∉ m.map Prod.fst := by
  induction m with
  | nil => simp [alookup]
  | cons p rest ih =>
      obtain ⟨k1, v1⟩ := p
      rw [alookup_cons]
      by_cases h : k1 = k
      · subst h
        simp
      · rw [if_neg h]
        simp [List.mem_cons, Ne.symm h, ih]

theorem mem_seriesGroups_keys (records : List Record) (g : String) :
    g ∈ (seriesGroups records).map Prod.fst ↔
      g ∈ records.filterMap (fun r => truthyStr r.geo_code) := by
  have hnone := foldl_groupStep_lookup_none (List.insertionSort tsAscRel records)
    [] g (by simp [alookup])
  have h1 : (g ∈ (seriesGroups records).map Prod.fst) ↔
      ¬ (alookup (seriesGroups records) g = none) := by
    rw [alookup_eq_none_iff, not_not]
  have h2 : (alookup (seriesGroups records) g = none) ↔
      (List.insertionSort tsAscRel records).filter (geoPred g) = [] := by
    unfold seriesGroups
    rw [hnone]
    by_cases hf : (List.insertionSort tsAscRel records).filter (geoPred g) = []
    · rw [if_pos hf]
      simp [hf]
    · rw [if_neg hf]
      simp [hf]
  have h3 : ((List.insertionSort tsAscRel records).filter (geoPred g) = []) ↔
      ¬ (g ∈ records.filterMap (fun r => truthyStr r.geo_code)) := by
    rw [List.filter_eq_nil]
    constructor
    · intro hall hc
      rw [List.mem_filterMap] at hc
      obtain ⟨r, hr, hg⟩ := hc
      exact hall r (by rw [List.mem_insertionSort]; exact hr)
        (by simp [geoPred, hg])
    · intro hnc r hr hgp
      apply hnc
      rw [List.mem_filterMap]
      refine ⟨r, ?_, ?_⟩
      · rw [List.mem_insertionSort] at hr
        exact hr
      · simpa [geoPred] using hgp
  rw [h1, h2, h3, not_not]

theorem seriesGroups_lookup (records : List Record) (g : String)
    (rs : List Record) (h : alookup (seriesGroups records) g = some rs) :
    rs = (List.insertionSort tsAscRel records).filter (geoPred g) := by
  have hnone := foldl_groupStep_lookup_none (List.insertionSort tsAscRel records)
    [] g (by simp [alookup])
  unfold seriesGroups at h
  rw [hnone] at h
  by_cases hf : (List.insertionSort tsAscRel records).filter (geoPred g) = []
  · rw [if_pos hf] at h
    cases h
  · rw [if_neg hf] at h
    exact (Option.some_inj.mp h).symm

theorem group_time_weak (records : List Record) (g : String)
    (rs : List Record) (h : alookup (seriesGroups records) g = some rs) :
    List.Pairwise
      (fun a b => optLt (fun x y : Nat => decide (x < y)) b.time_pos a.time_pos
        = false) rs := by
  have hrs := seriesGroups_lookup records g rs h
  have hsorted : List.Pairwise tsAscRel (List.insertionSort tsAscRel records) :=
    List.sorted_insertionSort tsAscRel records
  have hps : List.Pairwise tsAscRel rs := by
    rw [hrs]
    exact List.Pairwise.sublist (List.filter_sublist _) hsorted
  refine hps.imp_of_mem ?_
  intro a b ha hb hrel
  have hga : geoPred g a = true := by
    rw [hrs] at ha
    exact List.of_mem_filter ha
  have hgb : geoPred g b = true := by
    rw [hrs] at hb
    exact List.of_mem_filter hb
  have hga2 : a.geo_code = some g := truthyStr_eq_some (by simpa [geoPred] using hga)
  have hgb2 : b.geo_code = some g := truthyStr_eq_some (by simpa [geoPred] using hgb)
  unfold tsAscRel tsKeyLt tsKey pairLt at hrel
  simp only [Bool.or_eq_false_iff, Bool.and_eq_false_iff] at hrel
  obtain ⟨h1, h2⟩ := hrel
  rcases h2 with h2 | h2
  · rw [hga2, hgb2] at h2
    simp at h2
  · exact h2

theorem group_time_strict (records : List Record) (g : String)
    (rs : List Record)
    (hnd : (records.map (fun r => (r.geo_code, r.time_pos))).Nodup)
    (h : alookup (seriesGroups records) g = some rs) :
    List.Pairwise
      (fun a b => optLt (fun x y : Nat => decide (x < y)) a.time_pos b.time_pos
        = true) rs := by
  have hweak := group_time_weak records g rs h
  have hrs := seriesGroups_lookup records g rs h
  have hperm : (List.insertionSort tsAscRel records).Perm records :=
    List.perm_insertionSort _ _
  have hnd2 : ((List.insertionSort tsAscRel records).map
      (fun r => (r.geo_code, r.time_pos))).Nodup :=
    (List.Perm.nodup_iff (hperm.map _)).mpr hnd
  have hsub : rs.Sublist (List.insertionSort tsAscRel records) := by
    rw [hrs]
    exact List.filter_sublist _
  have hnd3 : (rs.map (fun r => (r.geo_code, r.time_pos))).Nodup :=
    List.Nodup.sublist (hsub.map _) hnd2
  have hpne : List.Pairwise
      (fun a b : Record => (a.geo_code, a.time_pos) ≠ (b.geo_code, b.time_pos))
      rs := by
    rw [List.Nodup, List.pairwise_map] at hnd3
    exact hnd3
  refine (hweak.and hpne).imp_of_mem ?_
  intro a b ha hb hab
  obtain ⟨hw, hne⟩ := hab
  have hga : a.geo_code = some g := by
    rw [hrs] at ha
    exact truthyStr_eq_some (by simpa [geoPred] using List.of_mem_filter ha)
  have hgb : b.geo_code = some g := by
    rw [hrs] at hb
    exact truthyStr_eq_some (by simpa [geoPred] using List.of_mem_filter hb)
  have htne : a.time_pos ≠ b.time_pos := by
    intro hc
    apply hne
    rw [hga, hgb, hc]
  by_cases hlt : optLt (fun x y : Nat => decide (x < y)) a.time_pos b.time_pos
      = true
  · exact hlt
  · have h1 : optLt (fun x y : Nat => decide (x < y)) a.time_pos b.time_pos
        = false := by simpa using hlt
    exact absurd (optLt_connex natLt_connex a.time_pos b.time_pos h1 hw) htne

end Eufacts

open Eufacts

/-- C6: a cube with an empty value mapping fails with the structural
`noValue` error before the catalog is even consulted, and a cube whose
catalog lacks a `time` dimension fails with the structural `noTime`
error; in the `Except` embedding the error is the function's result,
i.e. it propagates to the caller and no record materialization or
projection output is produced. -/
theorem C6_structural_errors :
    (∀ cube : Cube, cube.value = [] →
        parse_latest_and_timeseries cube = Except.error ParseErr.noValue) ∧
    (∀ (cube : Cube) (dm : List (String × DimMeta)), cube.value ≠ [] →
        build_dim_meta cube = Except.ok dm → alookup dm "time" = none →
        parse_latest_and_timeseries cube = Except.error ParseErr.noTime) := by
  constructor
  · intro cube hv
    unfold parse_latest_and_timeseries
    rw [if_pos (by simp [hv])]
  · intro cube dm hv hbd htm
    unfold parse_latest_and_timeseries
    rw [if_neg (by simp [hv]), hbd]
    dsimp only
    rw [htm]

/-- Witness for C6 at the two concrete cubes. -/
theorem C6_structural_errors_witness :
    parse_latest_and_timeseries cubeEmptyValue = Except.error ParseErr.noValue ∧
      parse_latest_and_timeseries cubeNoTime = Except.error ParseErr.noTime :=
  ⟨C6_structural_errors.1 cubeEmptyValue rfl,
    C6_structural_errors.2 cubeNoTime
      [("geo", { index := [("BE", 0)], labels := [("BE", "Belgium")], size := 1 })]
      (by decide) (by decide) (by decide)⟩

/-- C9: for every dimension of the cube, the catalog builder takes
code-to-position directly from the supplied index map when it is
non-empty, synthesizes positions `0, 1, ...` over the label-map keys in
iteration order when it is absent or empty, and sizes the dimension by
the explicit `length` field when present, else by the count of distinct
codes. -/
theorem C9_dimension_catalog (cube : Cube) (dm : List (String × DimMeta))
    (d : String) (cat : Category)
    (hok : build_dim_meta cube = Except.ok dm) (hmem : d ∈ cube.id)
    (hcat : alookup cube.dimension d = some cat) :
    alookup dm d = some (buildDimMetaOne cat) ∧
      (cat.index ≠ [] → (buildDimMetaOne cat).index = cat.index) ∧
      (cat.index = [] → (buildDimMetaOne cat).index =
        (cat.label.map Prod.fst).enum.map (fun im => (im.2, im.1))) ∧
      (∀ n, cat.length? = some n → (buildDimMetaOne cat).size = n) ∧
      (cat.length? = none → (buildDimMetaOne cat).size =
        (((buildDimMetaOne cat).index.map Prod.fst).dedup).length) := by
  refine ⟨buildDimsAux_lookup cube.dimension cube.id dm d cat hok hmem hcat,
    ?_, ?_, ?_, ?_⟩
  · intro hne
    unfold buildDimMetaOne
    rw [if_neg (by simpa [List.isEmpty_iff] using hne)]
  · intro he
    unfold buildDimMetaOne
    rw [if_pos (by simpa [List.isEmpty_iff] using he)]
  · intro n hn
    unfold buildDimMetaOne
    rw [hn]
  · intro hn
    unfold buildDimMetaOne
    rw [hn]

/-- Witness for C9 at the demo cube's `geo` dimension. -/
theorem C9_dimension_catalog_witness :
    alookup [("unit", { index := [("PC_GDP", 0)]
                        labels := [("PC_GDP", "%")]
                        size := 1 }),
             ("geo", { index := [("BE", 0), ("DE", 1)]
                       labels := [("BE", "Belgium"), ("DE", "Germany")]
                       size := 2 }),
             ("time", { index := [("2024-Q1", 0), ("2024-Q2", 1)]
                        labels := [("2024-Q1", "2024 Q1"), ("2024-Q2", "2024 Q2")]
                        size := 2 })] "geo"
        = some (buildDimMetaOne { index := [("BE", 0), ("DE", 1)]
                                  label := [("BE", "Belgium"), ("DE", "Germany")]
                                  length? := none }) := by
  have h := C9_dimension_catalog cubeDemo
    [("unit", { index := [("PC_GDP", 0)], labels := [("PC_GDP", "%")], size := 1 }),
     ("geo", { index := [("BE", 0), ("DE", 1)]
               labels := [("BE", "Belgium"), ("DE", "Germany")], size := 2 }),
     ("time", { index := [("2024-Q1", 0), ("2024-Q2", 1)]
                labels := [("2024-Q1", "2024 Q1"), ("2024-Q2", "2024 Q2")]
                size := 2 })]
    "geo" { index := [("BE", 0), ("DE", 1)]
            label := [("BE", "Belgium"), ("DE", "Germany")]
            length? := none }
    (by decide) (by decide) (by decide)
  exact h.1

/-- C2: the Unit Disambiguator `_choose_pct_unit` returns the first of
PC_GDP, PCGDP, PCT_GDP, PCTGDP (in that order) present among the truthy
unit codes of the records; failing that, the first unit code in
first-seen record-iteration order whose label contains `%`; failing
that, the single distinct unit code if exactly one is present;
otherwise no unit (`none`). -/
theorem C2_unit_cascade (records : List Record) :
    choose_pct_unit records = choosePctUnitSpec records := by
  unfold choose_pct_unit choosePctUnitSpec
  by_cases h1 : "PC_GDP" ∈ unitCodes records
  · simp [List.find?, mem_units_present, h1]
  by_cases h2 : "PCGDP" ∈ unitCodes records
  · simp [List.find?, mem_units_present, h1, h2]
  by_cases h3 : "PCT_GDP" ∈ unitCodes records
  · simp [List.find?, mem_units_present, h1, h2, h3]
  by_cases h4 : "PCTGDP" ∈ unitCodes records
  · simp [List.find?, mem_units_present, h1, h2, h3, h4]
  simp only [List.find?, mem_units_present]
  have hd1 : (decide ("PC_GDP" ∈ unitCodes records)) = false := by
    simp [h1]
  have hd2 : (decide ("PCGDP" ∈ unitCodes records)) = false := by
    simp [h2]
  have hd3 : (decide ("PCT_GDP" ∈ unitCodes records)) = false := by
    simp [h3]
  have hd4 : (decide ("PCTGDP" ∈ unitCodes records)) = false := by
    simp [h4]
  rw [hd1, hd2, hd3, hd4]
  simp only [if_neg h1, if_neg h2, if_neg h3, if_neg h4]
  have hF := find_unitLabelsAux records []
  have hfe : (unitCodes records).filter (fun c => decide (c ∉ ([] : List String)))
      = unitCodes records := by
    apply List.filter_eq_self.mpr
    intro a _
    simp
  rw [hfe] at hF
  cases hfind : (unit_labels records).find? (fun cl => hasPctLabel cl.2) with
  | some cl =>
      unfold unit_labels at hfind
      rw [hfind] at hF
      simp at hF
      rw [← hF]
  | none =>
      unfold unit_labels at hfind
      rw [hfind] at hF
      simp at hF
      rw [← hF]
      have hp := units_present_perm records
      cases hd : (unitCodes records).dedup with
      | nil =>
          rw [hd] at hp
          have := hp.eq_nil
          rw [this]
          simp
      | cons c cs =>
          cases cs with
          | nil =>
              rw [hd] at hp
              have := List.perm_singleton.mp hp
              rw [this]
              simp
          | cons c2 cs2 =>
              rw [hd] at hp
              have hlen : (units_present records).length = cs2.length + 2 := by
                simpa using hp.length_eq
              rw [if_neg (by omega)]

/-- C3: for positive dimension sizes and an in-range linear index,
decoding with `_linear_index_to_coords` and re-encoding the decoded
vector as row-major mixed-radix digits over the same size list returns
the original index, and the decoded vector pairs one in-range position
with each dimension, in the original dimension order. -/
theorem C3_decode_encode_roundtrip (sizes : List Nat) (idx : Nat)
    (hpos : ∀ s ∈ sizes, 0 < s) (hlt : idx < sizes.prod) :
    encodeCoords (linear_index_to_coords idx sizes) sizes = idx ∧
      List.Forall₂ (fun c s => c < s) (linear_index_to_coords idx sizes) sizes := by
  constructor
  · rw [encode_decode, Nat.mod_eq_of_lt hlt]
  · exact coords_inRange idx sizes hpos

/-- Witness for C3 at `sizes = [1, 2, 2]`, `idx = 3`. -/
theorem C3_decode_encode_roundtrip_witness :
    encodeCoords (linear_index_to_coords 3 [1, 2, 2]) [1, 2, 2] = 3 ∧
      List.Forall₂ (fun c s => c < s) (linear_index_to_coords 3 [1, 2, 2]) [1, 2, 2] :=
  C3_decode_encode_roundtrip [1, 2, 2] 3 (by decide) (by decide)

/-- C10: for a non-empty list of strictly positive sizes the coordinate
decoder is total (it is a Lean `def`, hence returns a position vector
for every index); every returned position is in range for its
dimension; and an out-of-range index silently aliases to the cell at
`index mod product(sizes)` instead of producing an error. -/
theorem C10_decoder_total_aliasing (sizes : List Nat) (idx : Nat)
    (hne : sizes ≠ []) (hpos : ∀ s ∈ sizes, 0 < s) :
    List.Forall₂ (fun c s => c < s) (linear_index_to_coords idx sizes) sizes ∧
      linear_index_to_coords idx sizes =
        linear_index_to_coords (idx % sizes.prod) sizes := by
  refine ⟨coords_inRange idx sizes hpos, ?_⟩
  unfold linear_index_to_coords
  rw [← List.prod_reverse, decodeAux_mod]

/-- Witness for C10 at `sizes = [2, 3]`, `idx = 100` (out of range:
`100 % 6 = 4`). -/
theorem C10_decoder_total_aliasing_witness :
    List.Forall₂ (fun c s => c < s) (linear_index_to_coords 100 [2, 3]) [2, 3] ∧
      linear_index_to_coords 100 [2, 3] =
        linear_index_to_coords (100 % List.prod [2, 3]) [2, 3] :=
  C10_decoder_total_aliasing [2, 3] 100 (by decide) (by decide)

/-- C8: when the Unit Disambiguator chooses a unit, the kept record
list is exactly the records whose unit code equals it; when it chooses
none, the kept list is the whole unfiltered record set; and every
successful parse feeds exactly this unit-filtered list to both
projections. -/
theorem C8_unit_filter_scope :
    (∀ (records : List Record) (u : String),
        choose_pct_unit records = some u →
        unitFilter records = records.filter (fun r => r.unit_code == some u)) ∧
    (∀ records : List Record, choose_pct_unit records = none →
        unitFilter records = records) ∧
    (∀ (cube : Cube) (res : ParseResult),
        parse_latest_and_timeseries cube = Except.ok res →
        ∃ (recs : List Record) (ltp : Int),
          res.latest = latestProjection ltp (unitFilter recs) ∧
          res.series = series_by_geo (unitFilter recs) ∧
          res.meta.chosen_unit = choose_pct_unit recs) := by
  refine ⟨?_, ?_, ?_⟩
  · intro records u h
    unfold unitFilter
    rw [h]
  · intro records h
    unfold unitFilter
    rw [h]
  · intro cube res h
    obtain ⟨dm, tm, ltc, recs, _, _, _, _, hl, hs, hm⟩ := parse_ok_elim cube res h
    exact ⟨recs, (tm.size : Int) - 1, hl, hs, by rw [hm]⟩

/-- Witness for C8: the chosen-unit filter on a concrete list, the
none-chosen identity on a concrete list, and the projection inputs of
the demo cube's parse. -/
theorem C8_unit_filter_scope_witness :
    unitFilter demoRecsPct
        = demoRecsPct.filter (fun r => r.unit_code == some "PC_GDP") ∧
      unitFilter demoRecsNoUnit = demoRecsNoUnit ∧
      ∃ (recs : List Record) (ltp : Int),
        demoResult.latest = latestProjection ltp (unitFilter recs) ∧
        demoResult.series = series_by_geo (unitFilter recs) ∧
        demoResult.meta.chosen_unit = choose_pct_unit recs :=
  ⟨C8_unit_filter_scope.1 demoRecsPct "PC_GDP" (by decide),
    C8_unit_filter_scope.2.1 demoRecsNoUnit (by decide),
    C8_unit_filter_scope.2.2 cubeDemo demoResult (by decide)⟩

/-- C4: the latest-period projection of every successful parse keeps
exactly the records whose time position equals the time dimension's
declared size minus one; and on the concrete sparse cube whose records
only reach time position 0 under a declared size of 2, the projection
is empty even though records (and a nonempty series) exist — the
observed maximum position is never used. -/
theorem C4_latest_declared_position :
    (∀ (cube : Cube) (res : ParseResult),
        parse_latest_and_timeseries cube = Except.ok res →
        ∃ (dm : List (String × DimMeta)) (timeMeta : DimMeta)
          (recs : List Record),
          build_dim_meta cube = Except.ok dm ∧
          alookup dm "time" = some timeMeta ∧
          materializeCells cube dm cube.value = Except.ok recs ∧
          res.latest =
            (List.insertionSort latDescRel
              ((unitFilter recs).filter
                (fun r => (r.time_pos.map (fun n => (n : Int)))
                  == some ((timeMeta.size : Int) - 1)))).map toLatestOut) ∧
    ((parse_latest_and_timeseries cubeSparseTime).map (fun res => res.latest)
        = Except.ok [] ∧
      (parse_latest_and_timeseries cubeSparseTime).map
          (fun res => res.series.map (fun gs => gs.1))
        = Except.ok ["BE"]) := by
  constructor
  · intro cube res h
    obtain ⟨dm, tm, ltc, recs, h1, h2, h3, h4, hl, hs, hm⟩ := parse_ok_elim cube res h
    exact ⟨dm, tm, recs, h1, h2, h4, hl⟩
  · exact ⟨by decide, by decide⟩

/-- Witness for C4 at the demo cube. -/
theorem C4_latest_declared_position_witness :
    ∃ (dm : List (String × DimMeta)) (timeMeta : DimMeta)
      (recs : List Record),
      build_dim_meta cubeDemo = Except.ok dm ∧
      alookup dm "time" = some timeMeta ∧
      materializeCells cubeDemo dm cubeDemo.value = Except.ok recs ∧
      demoResult.latest =
        (List.insertionSort latDescRel
          ((unitFilter recs).filter
            (fun r => (r.time_pos.map (fun n => (n : Int)))
              == some ((timeMeta.size : Int) - 1)))).map toLatestOut :=
  C4_latest_declared_position.1 cubeDemo demoResult (by decide)

/-- C7 counterexample: on the specification's end-to-end cube the
latest-period projection is `[(DE, 65), (BE, 60)]` — the claimed output
`[(DE, 65), (BE, 82)]` (with 82, DE's older value, attributed to BE)
is not what the code produces. -/
theorem C7_counterexample :
    (parse_latest_and_timeseries cubeDemo).map
        (fun res => res.latest.map (fun o => (o.country_code, o.value_pct_gdp)))
      = Except.ok [(some "DE", some 65), (some "BE", some 60)] ∧
      ¬ ((parse_latest_and_timeseries cubeDemo).map
          (fun res => res.latest.map (fun o => (o.country_code, o.value_pct_gdp)))
        = Except.ok [(some "DE", some 65), (some "BE", some 82)]) := by
  exact ⟨by decide, by decide⟩

/-- C7 amended: the demo cube parses to exactly this result — latest
projection `[{DE, 65}, {BE, 60}]` sorted descending by value, and two
two-entry series each ascending by time. -/
theorem C7_end_to_end :
    parse_latest_and_timeseries cubeDemo = Except.ok demoResult := by
  decide

/-- C1 counterexample: on the unit-filtered list
`[recPresent, recMissing]` (the unit filter keeps both records), the
latest-period projection outputs the missing-value record first —
`[none, some 80]` — so the output is not sorted with missing values
after all present values as the claim states. -/
theorem C1_counterexample :
    unitFilter [recPresent, recMissing] = [recPresent, recMissing] ∧
      (latestProjection 0 [recPresent, recMissing]).map
          (fun o => o.value_pct_gdp) = [none, some 80] ∧
      ¬ List.Pairwise (fun a b => specLatestOrder a b = true)
          (latestProjection 0 [recPresent, recMissing]) := by
  exact ⟨by decide, by decide, by decide⟩

/-- C1 amended: for every latest time position and every unit-filtered
record list, the latest projection's output is sorted by the key
`(value is missing, value)` descending — missing-value records precede
all present-value records (Python's `reverse=True` puts the larger
key, i.e. the missing flag, first), and among present values the
larger value sorts first, regardless of numeric sign. -/
theorem C1_latest_ordering (ltp : Int) (records : List Record) :
    List.Pairwise (fun a b => amendedLatestOrder a b = true)
      (latestProjection ltp records) := by
  unfold latestProjection
  rw [List.pairwise_map]
  have hs := List.sorted_insertionSort latDescRel
    (records.filter
      (fun r => (r.time_pos.map (fun n => (n : Int))) == some ltp))
  refine hs.imp ?_
  intro a b hab
  unfold latDescRel at hab
  unfold amendedLatestOrder toLatestOut
  cases ha : a.value with
  | none => simp
  | some v =>
      cases hb : b.value with
      | none =>
          simp only [latestKey, ha, hb] at hab
          simp [latKeyLt, pairLt] at hab
      | some w =>
          simp only [latestKey, ha, hb] at hab
          simp [latKeyLt, pairLt] at hab
          simp only [decide_eq_true_eq]
          omega

/-- C5 counterexample: the unit filter keeps both of `recDupA`,
`recDupB` (two units, none chosen), their single `BE` series holds both
records, both share time position 0, and so the series is not strictly
ascending by time position — two entries of one series share a time
position. -/
theorem C5_counterexample :
    unitFilter [recDupA, recDupB] = [recDupA, recDupB] ∧
      alookup (seriesGroups [recDupA, recDupB]) "BE" = some [recDupA, recDupB] ∧
      recDupA.time_pos = recDupB.time_pos ∧
      ¬ List.Pairwise
          (fun a b => optLt (fun x y : Nat => decide (x < y)) a.time_pos b.time_pos
            = true)
          [recDupA, recDupB] := by
  exact ⟨by decide, by decide, by decide, by decide⟩

/-- C5 amended: the timeseries projection produces one series per
geography code appearing in at least one record (records with no
geography code are skipped); the series appear in
geography-code-alphabetical order; each series' entries are the
`(time label, value)` images of its record group; within each group
time positions are non-strictly ascending — and strictly ascending
with no duplicates whenever the records' `(geo_code, time_pos)` pairs
are pairwise distinct (as they are whenever a unit filter left one
record per (geography, time) cell). -/
theorem C5_timeseries_grouping (records : List Record) :
    (∀ g : String,
        g ∈ (seriesGroups records).map Prod.fst ↔
          g ∈ records.filterMap (fun r => truthyStr r.geo_code)) ∧
      List.Pairwise (fun a b => strLt a b = true)
        ((seriesGroups records).map Prod.fst) ∧
      series_by_geo records =
        (seriesGroups records).map (fun grs => (grs.1, toSeries grs.1 grs.2)) ∧
      (∀ (g : String) (rs : List Record),
          alookup (seriesGroups records) g = some rs →
          List.Pairwise
            (fun a b => optLt (fun x y : Nat => decide (x < y)) b.time_pos a.time_pos
              = false) rs) ∧
      ((records.map (fun r => (r.geo_code, r.time_pos))).Nodup →
        ∀ (g : String) (rs : List Record),
          alookup (seriesGroups records) g = some rs →
          List.Pairwise
            (fun a b => optLt (fun x y : Nat => decide (x < y)) a.time_pos b.time_pos
              = true) rs) :=
  ⟨fun g => mem_seriesGroups_keys records g,
    seriesGroups_keys_sorted records,
    rfl,
    fun g rs h => group_time_weak records g rs h,
    fun hnd g rs h => group_time_strict records g rs hnd h⟩

/-- Witness for C5 at the demo records (distinct geographies BE and
DE, so the strict part applies). -/
theorem C5_timeseries_grouping_witness :
    List.Pairwise
        (fun a b => optLt (fun x y : Nat => decide (x < y)) b.time_pos a.time_pos
          = false)
        (demoRecsPct.filter (geoPred "BE")) ∧
      List.Pairwise
        (fun a b => optLt (fun x y : Nat => decide (x < y)) a.time_pos b.time_pos
          = true)
        (demoRecsPct.filter (geoPred "BE")) := by
  have h := C5_timeseries_grouping demoRecsPct
  refine ⟨?_, ?_⟩
  · exact h.2.2.2.1 "BE" (demoRecsPct.filter (geoPred "BE")) (by decide)
  · exact h.2.2.2.2 (by decide) "BE" (demoRecsPct.filter (geoPred "BE")) (by decide)
